import Mathlib

/-!
Verification of the pyasco conversational coding-assistant agent.

Shallow embedding of the components the claims concern:
* the response handler's tool derivation (`createToolResponse`),
* the tool handler's snippet execution (`executePythonTool`),
* the agent's bounded auto follow-up loop (`followUpLoop` / `askAuto`),
* the streaming response generator (`handleStreamingYields`),
* the LLM client wrapper (`get_openai_response`),
* the Docker-mode code executor (`execBashInDocker` / `execPyInDocker`),
* the skill manager (`SMState.learn` / `SMState.improve_skill` and the
  shared requirements file).

External effects (the LLM endpoint, the markdown extractor, the code
executor subprocess, the Docker daemon) are modelled as oracle parameters;
the file system of the skill manager is modelled as a map from paths to
contents, with the shared requirements file kept as its list of lines.
-/

/-- Case-insensitive-substring helper: `needle` occurs inside `hay`
(model of Python `needle in hay` on strings). -/
def containsSub (hay needle : String) : Bool :=
  hay.data.tails.any (fun t => needle.data.isPrefixOf t)

/-- Model of Python `str.lower()` as a per-character map. -/
def pyLower (s : String) : String :=
  String.mk (s.data.map Char.toLower)

/-- Model of a fenced code block returned by the snippet extractor
(`CodeSnippet` in `services/code_snippet_extractor.py`). -/
structure CodeSnippet where
  language : Option String
  content : String
deriving DecidableEq, Repr

/-- Model of a pending tool call `{name, parameters: {snippets}}`. -/
structure Tool where
  name : String
  snippets : List CodeSnippet
deriving DecidableEq, Repr

/-- Python truthiness of an optional string: not `None` and not empty. -/
def optTruthy (o : Option String) : Bool :=
  match o with
  | none => false
  | some s => !s.isEmpty

/-- Model of `ResponseHandler._create_tool_response`: one `python_executor`
tool call when the extracted snippet list is non-empty, else none. -/
def createToolResponse (snippets : List CodeSnippet) : List Tool :=
  if snippets.isEmpty then [] else [⟨"python_executor", snippets⟩]

/-- A snippet's fence language mentions "python" or "bash"
(case-insensitive substring), the condition tested by
`ToolHandler._execute_python_tool` before routing to the executor. -/
def snippetLangMatches (s : CodeSnippet) : Bool :=
  match s.language with
  | none => false
  | some lang => containsSub (pyLower lang) "python" || containsSub (pyLower lang) "bash"

/-- Model of `ToolHandler._execute_python_tool`.  The executor is an oracle
`ex : content → language → (stdout?, stderr?)`.  Mirrors the source: a
snippet with absent language is skipped; a matching language is routed to
the executor (with the lower-cased language); entries are appended only
when `stdout or stderr` is truthy. -/
def executePythonTool (ex : String → String → Option String × Option String) :
    List CodeSnippet → List String
  | [] => []
  | s :: rest =>
    (match s.language with
     | none => []
     | some lang0 =>
       let language := pyLower lang0
       let r :=
         if containsSub language "python" || containsSub language "bash" then
           ex s.content language
         else (none, none)
       if optTruthy r.1 || optTruthy r.2 then
         ("Output:\n" ++ r.1.getD "") ::
           (if optTruthy r.2 then ["Errors:\n" ++ r.2.getD ""] else [])
       else []) ++ executePythonTool ex rest

/-- Model of `ToolHandler.execute_tools`: iterate tools, executing the
`python_executor` ones. -/
def executeTools (ex : String → String → Option String × Option String) :
    List Tool → List String
  | [] => []
  | t :: rest =>
    (if t.name = "python_executor" then executePythonTool ex t.snippets else []) ++
      executeTools ex rest

/-- Per-snippet result entries exactly as the claim words them: every
routed snippet contributes an "Output:" entry unconditionally. -/
def claimEntries (ex : String → String → Option String × Option String)
    (s : CodeSnippet) : List String :=
  match s.language with
  | none => []
  | some lang0 =>
    let language := pyLower lang0
    if containsSub language "python" || containsSub language "bash" then
      let r := ex s.content language
      ("Output:\n" ++ r.1.getD "") ::
        (if optTruthy r.2 then ["Errors:\n" ++ r.2.getD ""] else [])
    else []

/-- Per-snippet result entries as the code actually behaves: a routed
snippet whose stdout and stderr are both absent/empty contributes no
entries at all. -/
def amendedEntries (ex : String → String → Option String × Option String)
    (s : CodeSnippet) : List String :=
  match s.language with
  | none => []
  | some lang0 =>
    let language := pyLower lang0
    if containsSub language "python" || containsSub language "bash" then
      let r := ex s.content language
      if optTruthy r.1 || optTruthy r.2 then
        ("Output:\n" ++ r.1.getD "") ::
          (if optTruthy r.2 then ["Errors:\n" ++ r.2.getD ""] else [])
      else []
    else []

/-- A fenced block tagged javascript only, as extracted from a reply. -/
def jsOnlySnippets : List CodeSnippet :=
  [⟨some "javascript", "console.log(1)"⟩]

/-- An executor oracle whose runs produce no output at all. -/
def silentExec : String → String → Option String × Option String :=
  fun _ _ => (none, none)

/-- Model of `get_openai_response` in `services/llm.py`: the chat-completion
attempt either yields content or fails with a message; a failure is
returned as ordinary text prefixed "Error: " instead of being raised. -/
def get_openai_response (attempt : Except String String) : String :=
  match attempt with
  | .ok content => content
  | .error e => "Error: " ++ e

/-- Model of a stored conversation message (a dict in the source).  The
`tools` key is absent on user/system messages, which `dict.get("tools")`
treats like an empty list; `skills` and `done` are kept as optional to
mirror which keys each code path actually writes. -/
structure Message where
  role : String
  content : String
  tools : List Tool := []
  skills : Option (List String) := none
  done : Option Bool := none
deriving DecidableEq, Repr

/-- Model of `AgentResponse` in `agent/types.py` with its field defaults. -/
structure AgentResponse where
  role : String := "assistant"
  content : String := ""
  tools : List Tool := []
  done : Bool := true
deriving DecidableEq, Repr

/-- Model of `Agent.should_ask_user`: the last stored message carries a
non-empty `tools` list. -/
def shouldAskUser (msgs : List Message) : Bool :=
  match msgs.getLast? with
  | none => false
  | some m => !m.tools.isEmpty

/-- The `tools` of the last stored message (`messages[-1].get("tools", [])`). -/
def lastTools (msgs : List Message) : List Tool :=
  match msgs.getLast? with
  | none => []
  | some m => m.tools

/-- Leading text of `FOLLOW_UP_PROMPT` in `agent/prompt.py`. -/
def followUpPre : String := "I executed that code. This was the output::\n"

/-- Trailing text of `FOLLOW_UP_PROMPT` in `agent/prompt.py`. -/
def followUpPost : String :=
  "\nWhat code needs to be run next (if anything, or are we done)? I can\x27t replace any placeholders. In case we\x27re done, let based on the output and give me the answer I need (remember I can\x27t read the output)."

/-- Model of `Agent.get_follow_up`: the fixed template around the joined
tool results. -/
def getFollowUp (results : List String) : String :=
  followUpPre ++ String.intercalate "\n" results ++ followUpPost

/-- External dependencies of one agent turn, abstracted as oracles:
the LLM endpoint (fed the role/content projection of the history), the
markdown snippet extractor, the skill-relevance selection, the
skill-processing augmentation of the user input, and the code executor. -/
structure Oracles where
  llm : List (String × String) → String
  extract : String → List CodeSnippet
  rel : String → List String
  aug : String → List String → List Message → String
  ex : String → String → Option String × Option String

/-- Model of `Agent.get_response` (non-streaming): append the augmented
user message (with its `skills` annotation), call the LLM on the
role/content projection of the history, derive tools from the reply, and
append the assistant message. -/
def getResponseStep (o : Oracles) (msgs : List Message) (input : String) :
    List Message × AgentResponse :=
  let skills := o.rel input
  let userMsg : Message :=
    { role := "user", content := o.aug input skills msgs, skills := some skills }
  let msgs1 := msgs ++ [userMsg]
  let reply := o.llm (msgs1.map (fun m => (m.role, m.content)))
  let tools := createToolResponse (o.extract reply)
  let respMsg : Message :=
    { role := "assistant", content := reply, tools := tools,
      skills := some [], done := some true }
  (msgs1 ++ [respMsg],
   { role := "assistant", content := reply, tools := tools, done := true })

/-- Model of the `while True` follow-up loop inside `Agent.ask` with
`auto=True`, fueled by the remaining allowed iterations
(`max_loops - loop_count`).  Returns the final history together with the
number of additional LLM turns issued.  Each iteration re-checks, in
source order: pending tools on the last message, the loop bound, and
whether tool execution produced any results. -/
def followUpLoop (o : Oracles) : Nat → List Message → List Message × Nat
  | 0, msgs => (msgs, 0)
  | fuel + 1, msgs =>
    if !(shouldAskUser msgs) then (msgs, 0)
    else
      let results := executeTools o.ex (lastTools msgs)
      if results.isEmpty then (msgs, 0)
      else
        let next := followUpLoop o fuel (getResponseStep o msgs (getFollowUp results)).1
        (next.1, next.2 + 1)

/-- Model of `Agent.ask(input, auto=True, max_loops)`: one initial turn,
then the bounded follow-up loop.  Second component counts the additional
LLM turns issued after the initial response. -/
def askAuto (o : Oracles) (msgs : List Message) (input : String) (maxLoops : Nat) :
    List Message × Nat :=
  followUpLoop o maxLoops (getResponseStep o msgs input).1

/-- Trivial oracle assignment used to instantiate general theorems. -/
def trivialOracles : Oracles where
  llm := fun _ => ""
  extract := fun _ => []
  rel := fun _ => []
  aug := fun input _ _ => input
  ex := silentExec

/-- Truthy delta contents of a streamed chunk sequence: the source loop
accumulates and yields only chunks whose `delta.content` is neither absent
nor empty. -/
def streamPartials (chunks : List (Option String)) : List String :=
  (chunks.filterMap id).filter (fun s => !s.isEmpty)

/-- The accumulated `full_content` after the streaming loop. -/
def streamFullContent (chunks : List (Option String)) : String :=
  String.join (streamPartials chunks)

/-- The assistant message appended by the streaming path
(`final_response.__dict__`: no `skills` key). -/
def finalStreamMessage (extract : String → List CodeSnippet)
    (chunks : List (Option String)) : Message :=
  { role := "assistant", content := streamFullContent chunks,
    tools := createToolResponse (extract (streamFullContent chunks)),
    done := some true }

/-- The full yield sequence of `ResponseHandler._handle_streaming_response`:
one not-done partial response per truthy chunk, then the final response
carrying the accumulated content and derived tools. -/
def handleStreamingYields (extract : String → List CodeSnippet)
    (chunks : List (Option String)) : List AgentResponse :=
  (streamPartials chunks).map (fun c => { content := c, done := false }) ++
    [{ content := streamFullContent chunks,
       tools := createToolResponse (extract (streamFullContent chunks)) }]

/-- History state after consuming `n` yields of the streaming generator:
the `messages.append` runs between the last partial yield and the final
yield, so the appended assistant message exists exactly when the final
yield was consumed. -/
def streamingMessagesAfter (extract : String → List CodeSnippet)
    (chunks : List (Option String)) (msgs : List Message) (n : Nat) :
    List Message :=
  if (streamPartials chunks).length + 1 ≤ n then
    msgs ++ [finalStreamMessage extract chunks]
  else msgs

/-- Normalization applied to exec output in `_execute_bash_in_docker`:
`bytes.decode(...) if bytes else None` maps absent or empty output to
`None`. -/
def normOpt (o : Option String) : Option String :=
  match o with
  | none => none
  | some s => if s.isEmpty then none else some s

/-- Model of `CodeExecutor._execute_bash_in_docker`.  The container's exec
facility is an oracle outcome: an exception message, or an exit code with
raw stdout/stderr.  A non-zero exit with no captured stderr is reported as
"Exit code: n"; an exception is returned as the stderr component. -/
def execBashInDocker (run : Except String (Int × Option String × Option String)) :
    Option String × Option String :=
  match run with
  | .error e => (none, some e)
  | .ok (exitCode, rawOut, rawErr) =>
    let stdout := normOpt rawOut
    let stderr := normOpt rawErr
    let stderr :=
      if exitCode ≠ 0 ∧ stderr = none then
        some ("Exit code: " ++ toString exitCode)
      else stderr
    (stdout, stderr)

/-- Model of `CodeExecutor._execute_in_docker`: clear the mailbox, write
the request, poll up to 1200 times for a `done` sentinel whose `exec_id`
matches, then read and decode `output.json`.  The container interactions
are oracles: the cleanup and write exit codes, `ready i` (the sentinel
exists with a matching id at poll iteration `i`), the read exit code, and
the decode outcome (an exception message or the stdout/stderr pair). -/
def execPyInDocker (cleanupExit writeExit : Int) (ready : Nat → Bool)
    (readExit : Int) (decoded : Except String (Option String × Option String)) :
    Option String × Option String :=
  if cleanupExit ≠ 0 then (none, some "Failed to cleanup previous execution files")
  else if writeExit ≠ 0 then (none, some "Failed to write input files")
  else if (List.range 1200).any ready then
    if readExit ≠ 0 then (none, some "Failed to read output")
    else
      match decoded with
      | .error e => (none, some e)
      | .ok r => r
  else (none, some "Execution timeout")

/-- Whitespace characters stripped by Python `str.strip()` (ASCII part). -/
def isPySpace (c : Char) : Bool :=
  c = ' ' || c = '\t' || c = '\n' || c = '\r' || c = '\x0b' || c = '\x0c'

/-- Strip leading and trailing whitespace from a character list. -/
def stripChars (l : List Char) : List Char :=
  ((l.dropWhile isPySpace).reverse.dropWhile isPySpace).reverse

/-- Model of Python `str.strip()`. -/
def pyStrip (s : String) : String :=
  String.mk (stripChars s.data)

/-- Lexicographic order on character lists by code point, the order Python
string comparison uses. -/
def charListLe : List Char → List Char → Bool
  | [], _ => true
  | _ :: _, [] => false
  | a :: as, b :: bs =>
    if a < b then true else if b < a then false else charListLe as bs

/-- Lexicographic string order (model of Python `<=` on `str`). -/
def strLe (a b : String) : Prop :=
  charListLe a.data b.data = true

instance : DecidableRel strLe :=
  fun a b => inferInstanceAs (Decidable (charListLe a.data b.data = true))

instance : IsTotal String strLe where
  total := by
    have key : ∀ (x y : List Char), charListLe x y = true ∨ charListLe y x = true := by
      intro x
      induction x with
      | nil => intro y; left; cases y <;> rfl
      | cons a as ih =>
        intro y
        cases y with
        | nil => right; rfl
        | cons b bs =>
          by_cases hab : a < b
          · left; simp [charListLe, hab]
          · by_cases hba : b < a
            · right; simp [charListLe, hba]
            · cases ih bs with
              | inl h => left; simp [charListLe, hab, hba, h]
              | inr h => right; simp [charListLe, hab, hba, h]
    intro a b
    exact key a.data b.data

instance : IsTrans String strLe where
  trans := by
    have key : ∀ (x y z : List Char), charListLe x y = true → charListLe y z = true →
        charListLe x z = true := by
      intro x
      induction x with
      | nil => intro y z _ _; cases z <;> rfl
      | cons a as ih =>
        intro y z hxy hyz
        cases y with
        | nil => simp [charListLe] at hxy
        | cons b bs =>
          cases z with
          | nil => simp [charListLe] at hyz
          | cons c cs =>
            simp only [charListLe] at hxy hyz ⊢
            by_cases hab : a < b
            · by_cases hbc : b < c
              · simp [lt_trans hab hbc]
              · by_cases hcb : c < b
                · simp [hbc, hcb] at hyz
                · have hbc' : b = c := le_antisymm (not_lt.mp hcb) (not_lt.mp hbc)
                  subst hbc'
                  simp [hab]
            · by_cases hba : b < a
              · simp [hab, hba] at hxy
              · have hab' : a = b := le_antisymm (not_lt.mp hba) (not_lt.mp hab)
                subst hab'
                by_cases hac : a < c
                · simp [hac]
                · by_cases hca : c < a
                  · simp [hac, hca] at hyz
                  · simp only [lt_self_iff_false, if_false] at hxy
                    simp only [hac, hca, if_false] at hyz ⊢
                    exact ih bs cs hxy hyz
    intro a b c
    exact key a.data b.data c.data

instance : IsAntisymm String strLe where
  antisymm := by
    have key : ∀ (x y : List Char), charListLe x y = true → charListLe y x = true →
        x = y := by
      intro x
      induction x with
      | nil =>
        intro y _ hyx
        cases y with
        | nil => rfl
        | cons b bs => simp [charListLe] at hyx
      | cons a as ih =>
        intro y hxy hyx
        cases y with
        | nil => simp [charListLe] at hxy
        | cons b bs =>
          simp only [charListLe] at hxy hyx
          by_cases hab : a < b
          · simp [hab, asymm hab] at hyx
          · by_cases hba : b < a
            · simp [hab, hba] at hxy
            · have hab' : a = b := le_antisymm (not_lt.mp hba) (not_lt.mp hab)
              subst hab'
              simp only [lt_self_iff_false, if_false] at hxy hyx
              rw [ih bs hxy hyx]
    intro a b h1 h2
    exact String.ext (key a.data b.data h1 h2)

/-- Python `sorted(set(...))`: the strictly increasing enumeration of the
elements of a list. -/
def sortedDedup (l : List String) : List String :=
  (List.insertionSort strLe l).dedup

/-- Reading the requirements file: the set of stripped non-blank lines
(`{line.strip() for line in f if line.strip()}`). -/
def readReqs (lines : List String) : List String :=
  (lines.map pyStrip).filter (fun s => !s.isEmpty)

/-- Model of `SkillManager._update_requirements`: union the existing
stripped non-blank lines with the new requirements and write the result
back sorted, one entry per line. -/
def updateRequirements (fileLines newReqs : List String) : List String :=
  sortedDedup (readReqs fileLines ++ newReqs)

/-- A well-formed requirement entry: non-blank, already stripped, and free
of newlines (so that one entry is one line of the file). -/
def cleanReq (r : String) : Prop :=
  r ≠ "" ∧ pyStrip r = r ∧ r.data.contains '\n' = false

instance (r : String) : Decidable (cleanReq r) := by
  unfold cleanReq
  infer_instance

/-- Model of a persisted `Skill` record. -/
structure Skill where
  name : String
  usage : String
  file_path : String
  requirements : Option (List String)
deriving DecidableEq, Repr

/-- Model of the manifest entry produced by `Skill.to_dict`
(`requirements or []`). -/
structure SkillDict where
  name : String
  usage : String
  file_path : String
  requirements : List String
deriving DecidableEq, Repr

/-- Model of `Skill.to_dict`: a `None` requirements field is recorded as an
empty list. -/
def Skill.to_dict (s : Skill) : SkillDict :=
  ⟨s.name, s.usage, s.file_path, s.requirements.getD []⟩

/-- Derivation of a skill's file name from its name:
`name.lower().replace(' ', '_') + ".py"`. -/
def slug (name : String) : String :=
  String.mk (name.data.map (fun c => if c.toLower = ' ' then '_' else c.toLower)) ++ ".py"

/-- Python-dict insertion on an association list: replace the value in
place when the key exists, else append. -/
def dictInsert (k : String) (v : Skill) (d : List (String × Skill)) :
    List (String × Skill) :=
  if d.any (fun p => p.1 = k) then
    d.map (fun p => if p.1 = k then (k, v) else p)
  else d ++ [(k, v)]

/-- Python-dict lookup on an association list. -/
def dictLookup (k : String) (d : List (String × Skill)) : Option Skill :=
  (d.find? (fun p => p.1 = k)).map Prod.snd

/-- Model of the skill manager's state: the in-memory name-to-skill map,
the code files under the skills directory (path to contents), and the
lines of the shared requirements file. -/
structure SMState where
  skills : List (String × Skill)
  files : String → Option String
  reqFile : List String

/-- The requirements-file update both `learn` and `improve_skill` perform:
only a truthy (non-`None`, non-empty) requirements argument touches the
file. -/
def reqFileUpdate (reqFile : List String) (reqs : Option (List String)) :
    List String :=
  match reqs with
  | none => reqFile
  | some l => if l.isEmpty then reqFile else updateRequirements reqFile l

/-- Model of `SkillManager.learn`: derive the file name, write the code,
merge truthy requirements into the shared file, store the skill in the map
and return it (the manifest is the map snapshot, see `manifestOf`). -/
def SMState.learn (st : SMState) (name usage code : String)
    (reqs : Option (List String)) : SMState × Skill :=
  let fp := slug name
  let skill : Skill := ⟨name, usage, fp, reqs⟩
  ({ skills := dictInsert name skill st.skills,
     files := fun p => if p = fp then some code else st.files p,
     reqFile := reqFileUpdate st.reqFile reqs }, skill)

/-- Model of `SkillManager.improve_skill`: `None` when the name is unknown;
otherwise overwrite the existing skill's code file (same `file_path`),
merge truthy requirements, and replace the stored skill's `usage` and
`requirements` with the arguments. -/
def SMState.improve_skill (st : SMState) (name usage code : String)
    (reqs : Option (List String)) : SMState × Option Skill :=
  match dictLookup name st.skills with
  | none => (st, none)
  | some skill =>
    let skill2 : Skill :=
      { skill with usage := usage, requirements := reqs }
    ({ skills := dictInsert name skill2 st.skills,
       files := fun p => if p = skill.file_path then some code else st.files p,
       reqFile := reqFileUpdate st.reqFile reqs }, some skill2)

/-- Model of `SkillManager.get_skill`. -/
def SMState.get_skill (st : SMState) (name : String) : Option Skill :=
  dictLookup name st.skills

/-- Model of `SkillManager.get_skill_code`: read the skill's file, with a
missing file yielding the empty string. -/
def SMState.get_skill_code (st : SMState) (skill : Skill) : String :=
  (st.files skill.file_path).getD ""

/-- The manifest as rewritten by every mutating call: the `to_dict`
snapshot of the in-memory map. -/
def manifestOf (st : SMState) : List SkillDict :=
  st.skills.map (fun p => p.2.to_dict)

/-- A skill manager over an empty skills directory. -/
def emptySM : SMState :=
  { skills := [], files := fun _ => none, reqFile := [] }

/-- Split a character list on `/`. -/
def splitSlash : List Char → List (List Char)
  | [] => [[]]
  | c :: cs =>
    match splitSlash cs with
    | [] => [[]]
    | p :: ps => if c = '/' then [] :: p :: ps else (c :: p) :: ps

/-- The `/`-separated components of a path string. -/
def pathParts (s : String) : List String :=
  (splitSlash s.data).map (fun l => String.mk l)

/-- One step of path normalization: skip empty and `.` components, let
`..` discard the previous component, keep the rest. -/
def normStep (acc : List String) (c : String) : List String :=
  if c = "" ∨ c = "." then acc
  else if c = ".." then acc.dropLast
  else acc ++ [c]

/-- Normalize a component list by resolving `.` and `..`. -/
def normPath (cs : List String) : List String :=
  cs.foldl normStep []

/-- The claim's notion "`file_path` resolves to a location under the skills
directory": joining a relative `file_path` onto the `skills` directory and
normalizing must stay strictly below the `skills` component (an absolute
`file_path` replaces the base entirely and is not under it). -/
def resolvesUnderSkills (fp : String) : Bool :=
  if fp.data.head? = some '/' then false
  else
    let ns := normPath ("skills" :: pathParts fp)
    (ns.head? == some "skills") && decide (2 ≤ ns.length)

-- ### C1: tool derivation fires for any snippet, not only python/bash

/-- The claim as stated, instantiated at a javascript-only reply: the iff
between "a tool call is derived" and "some snippet mentions python/bash". -/
theorem c1_claim_fails_on_javascript :
    ¬ ((createToolResponse jsOnlySnippets ≠ []) ↔
        (∃ s ∈ jsOnlySnippets, snippetLangMatches s = true)) := by
  decide

/-- Amended C1: a `python_executor` tool call is derived iff the reply
contains at least one fenced code block of any language; snippets none of
whose languages mention python/bash are never executed (executing such a
tool yields an empty result list whatever the executor does). -/
theorem c1_amended (snippets : List CodeSnippet)
    (ex : String → String → Option String × Option String) :
    (createToolResponse snippets ≠ [] ↔ snippets ≠ []) ∧
    ((∀ s ∈ snippets, snippetLangMatches s = false) →
      executePythonTool ex snippets = []) := by
  constructor
  · unfold createToolResponse
    cases snippets with
    | nil => simp
    | cons s rest => simp
  · intro h
    induction snippets with
    | nil => rfl
    | cons s rest ih =>
      have hs := h s (by simp)
      have hrest : executePythonTool ex rest = [] :=
        ih (fun x hx => h x (by simp [hx]))
      unfold executePythonTool
      rw [hrest]
      cases hl : s.language with
      | none => simp
      | some lang0 =>
        unfold snippetLangMatches at hs
        rw [hl] at hs
        simp only [Bool.or_eq_false_iff] at hs
        simp [hs.1, hs.2, optTruthy]

/-- Witness for the amended C1 at the javascript-only reply with a concrete
executor. -/
theorem c1_amended_witness :
    (createToolResponse jsOnlySnippets ≠ [] ↔ jsOnlySnippets ≠ []) ∧
    executePythonTool silentExec jsOnlySnippets = [] :=
  ⟨(c1_amended jsOnlySnippets silentExec).1,
   (c1_amended jsOnlySnippets silentExec).2 (by decide)⟩

-- ### C2: executed snippets with no output contribute no entries

/-- The claim as stated, instantiated at a python snippet whose execution
produces neither stdout nor stderr: the claim predicts one "Output:" entry,
the code produces none. -/
theorem c2_claim_fails_on_silent_run :
    executePythonTool silentExec [⟨some "python", "pass"⟩] ≠
      ([(⟨some "python", "pass"⟩ : CodeSnippet)].map (claimEntries silentExec)).flatten := by
  decide

/-- Amended C2: the result list is the per-snippet concatenation of
`amendedEntries`: absent-language snippets are skipped, matching-language
snippets are routed to the executor and contribute their "Output:" entry
(plus an "Errors:" entry exactly when stderr is truthy) only when stdout or
stderr is non-empty, and all other snippets contribute nothing. -/
theorem c2_amended (ex : String → String → Option String × Option String)
    (snippets : List CodeSnippet) :
    executePythonTool ex snippets = (snippets.map (amendedEntries ex)).flatten := by
  induction snippets with
  | nil => rfl
  | cons s rest ih =>
    unfold executePythonTool
    rw [ih]
    simp only [List.map_cons, List.flatten]
    congr 1
    unfold amendedEntries
    cases s.language with
    | none => rfl
    | some lang0 =>
      simp only
      by_cases hm :
          (containsSub (pyLower lang0) "python" || containsSub (pyLower lang0) "bash") = true
      · simp [hm]
      · simp only [Bool.not_eq_true] at hm
        simp [hm, optTruthy]

-- ### C3: the auto follow-up loop is bounded and stops early

/-- Helper: the follow-up loop never issues more turns than its fuel. -/
theorem followUpLoop_count_le (o : Oracles) :
    ∀ (fuel : Nat) (msgs : List Message), (followUpLoop o fuel msgs).2 ≤ fuel := by
  intro fuel
  induction fuel with
  | zero => intro msgs; exact Nat.le_refl 0
  | succ f ih =>
    intro msgs
    unfold followUpLoop
    cases hsa : shouldAskUser msgs with
    | false => simp
    | true =>
      simp only [hsa, Bool.not_true, Bool.false_eq_true, if_false]
      by_cases hr : (executeTools o.ex (lastTools msgs)).isEmpty
      · simp [hr]
      · simp only [hr, if_false]
        exact Nat.succ_le_succ (ih _)

/-- C3: `ask` with `auto=True` issues at most `max_loops` additional LLM
turns after the initial response; the loop returns immediately when the
last stored message has no pending tools, and likewise when executing the
pending tools yields an empty result list. -/
theorem c3_follow_up_bound (o : Oracles) (msgs : List Message) (input : String)
    (maxLoops : Nat) :
    (askAuto o msgs input maxLoops).2 ≤ maxLoops ∧
    (∀ (fuel : Nat) (ms : List Message), shouldAskUser ms = false →
      followUpLoop o fuel ms = (ms, 0)) ∧
    (∀ (fuel : Nat) (ms : List Message), executeTools o.ex (lastTools ms) = [] →
      followUpLoop o (fuel + 1) ms = (ms, 0)) := by
  refine ⟨followUpLoop_count_le o maxLoops _, ?_, ?_⟩
  · intro fuel ms h
    cases fuel with
    | zero => rfl
    | succ f => unfold followUpLoop; simp [h]
  · intro fuel ms h
    unfold followUpLoop
    cases hsa : shouldAskUser ms with
    | false => simp
    | true => simp [h]

/-- Witness for C3 at concrete oracles, history, and bound. -/
theorem c3_follow_up_bound_witness :
    (askAuto trivialOracles [] "compute 2+2" 3).2 ≤ 3 ∧
    followUpLoop trivialOracles 5 [] = ([], 0) ∧
    followUpLoop trivialOracles 4 [] = ([], 0) :=
  ⟨(c3_follow_up_bound trivialOracles [] "compute 2+2" 3).1,
   (c3_follow_up_bound trivialOracles [] "compute 2+2" 3).2.1 5 [] rfl,
   (c3_follow_up_bound trivialOracles [] "compute 2+2" 3).2.2 3 [] rfl⟩

-- ### C7: LLM transport failures are returned as "Error: " text

/-- C7: a failing chat-completion call does not raise: its message comes
back as ordinary response text prefixed "Error: ", and genuine model output
with the same text is indistinguishable from it. -/
theorem c7_llm_error_encoding (m : String) :
    get_openai_response (Except.error m) = "Error: " ++ m ∧
    get_openai_response (Except.ok ("Error: " ++ m)) =
      get_openai_response (Except.error m) :=
  ⟨rfl, rfl⟩

-- ### C9: streaming generator semantics

/-- Helper: the character data of a left fold of string appends. -/
theorem data_foldl_append (l : List String) (acc : String) :
    (List.foldl (fun r s => r ++ s) acc l).data =
      acc.data ++ (l.map String.data).flatten := by
  induction l generalizing acc with
  | nil => simp
  | cons s t ih =>
    simp only [List.foldl_cons, List.map_cons, List.flatten_cons, ih,
      String.data_append, List.append_assoc]

/-- Helper: the character data of `String.join`. -/
theorem data_join (l : List String) :
    (String.join l).data = (l.map String.data).flatten := by
  unfold String.join
  rw [data_foldl_append]
  rfl

/-- Helper: dropping empty strings does not change a join. -/
theorem join_filter_nonempty (l : List String) :
    String.join (l.filter (fun s => !s.isEmpty)) = String.join l := by
  apply String.ext
  rw [data_join, data_join]
  induction l with
  | nil => rfl
  | cons s t ih =>
    cases he : s.isEmpty with
    | true =>
      have hs : s = "" := (String.isEmpty_iff s).mp he
      subst hs
      simpa using ih
    | false =>
      simp only [List.filter_cons, he, Bool.not_false, if_true, List.map_cons,
        List.flatten_cons]
      rw [ih]

/-- C9: a partially consumed streaming generator (any consumption count not
beyond the last partial yield) leaves the chat history untouched; full
consumption appends exactly one assistant message whose content is the
concatenation of all streamed chunk deltas and whose tools are derived from
that full content, and the generator's last yield is a done response
carrying that same content and tools. -/
theorem c9_streaming_consumption (extract : String → List CodeSnippet)
    (chunks : List (Option String)) (msgs : List Message) :
    (∀ n : Nat, n ≤ (streamPartials chunks).length →
      streamingMessagesAfter extract chunks msgs n = msgs) ∧
    streamingMessagesAfter extract chunks msgs ((streamPartials chunks).length + 1) =
      msgs ++ [finalStreamMessage extract chunks] ∧
    (finalStreamMessage extract chunks).content = String.join (chunks.filterMap id) ∧
    (handleStreamingYields extract chunks).getLast? =
      some { role := "assistant", content := streamFullContent chunks,
             tools := createToolResponse (extract (streamFullContent chunks)),
             done := true } ∧
    String.join ((handleStreamingYields extract chunks).dropLast.map
        AgentResponse.content) =
      (finalStreamMessage extract chunks).content := by
  refine ⟨?_, ?_, ?_, ?_, ?_⟩
  · intro n hn
    unfold streamingMessagesAfter
    rw [if_neg]
    omega
  · unfold streamingMessagesAfter
    rw [if_pos (Nat.le_refl _)]
  · show streamFullContent chunks = String.join (chunks.filterMap id)
    unfold streamFullContent streamPartials
    exact join_filter_nonempty _
  · unfold handleStreamingYields
    rw [List.getLast?_concat]
  · unfold handleStreamingYields finalStreamMessage
    rw [List.dropLast_concat, List.map_map]
    have h : (AgentResponse.content ∘ fun c => ({ content := c, done := false } : AgentResponse)) =
        fun c => c := rfl
    rw [h, List.map_id']
    rfl

/-- Witness for C9 at a concrete chunk stream, history, and consumption
count. -/
theorem c9_streaming_consumption_witness :
    streamingMessagesAfter (fun _ => []) [some "a", none, some "", some "b"] [] 2 = [] :=
  (c9_streaming_consumption (fun _ => []) [some "a", none, some "", some "b"] []).1 2
    (by decide)

-- ### C8: executor failures are encoded in the stderr component

/-- C8: container-mode execution never surfaces failures as exceptions.
A Python request whose sentinel never appears within the 1200-iteration
polling budget yields `(absent, "Execution timeout")`; a bash command
exiting non-zero with no captured stderr yields stderr "Exit code: n";
and exceptions from the container facility come back as the stderr
component of the result tuple in both paths. -/
theorem c8_executor_error_encoding (ready : Nat → Bool) (readExit : Int)
    (decoded : Except String (Option String × Option String))
    (exitCode : Int) (rawOut rawErr : Option String) (e : String) :
    ((∀ i, i < 1200 → ready i = false) →
      execPyInDocker 0 0 ready readExit decoded = (none, some "Execution timeout")) ∧
    (exitCode ≠ 0 → normOpt rawErr = none →
      execBashInDocker (Except.ok (exitCode, rawOut, rawErr)) =
        (normOpt rawOut, some ("Exit code: " ++ toString exitCode))) ∧
    execBashInDocker (Except.error e) = (none, some e) ∧
    (((List.range 1200).any ready) = true →
      execPyInDocker 0 0 ready 0 (Except.error e) = (none, some e)) := by
  refine ⟨?_, ?_, rfl, ?_⟩
  · intro h
    unfold execPyInDocker
    have hany : (List.range 1200).any ready = false := by
      rw [List.any_eq_false]
      intro i hi
      rw [List.mem_range] at hi
      simp [h i hi]
    simp [hany]
  · intro hne hnil
    simp [execBashInDocker, hnil, hne]
  · intro h
    unfold execPyInDocker
    simp [h]

/-- Witness for C8 at concrete oracle outcomes. -/
theorem c8_executor_error_encoding_witness :
    execPyInDocker 0 0 (fun _ => false) 0 (Except.ok (none, none)) =
      (none, some "Execution timeout") ∧
    execBashInDocker (Except.ok (2, some "partial out", none)) =
      (some "partial out", some ("Exit code: " ++ toString (2 : Int))) ∧
    execPyInDocker 0 0 (fun _ => true) 0 (Except.error "json decode failed") =
      (none, some "json decode failed") := by
  refine ⟨?_, ?_, ?_⟩
  · exact (c8_executor_error_encoding (fun _ => false) 0 (Except.ok (none, none)) 2
      (some "partial out") none "json decode failed").1 (fun _ _ => rfl)
  · exact (c8_executor_error_encoding (fun _ => false) 0 (Except.ok (none, none)) 2
      (some "partial out") none "json decode failed").2.1 (by decide) rfl
  · refine (c8_executor_error_encoding (fun _ => true) 0 (Except.ok (none, none)) 2
      (some "partial out") none "json decode failed").2.2.2 ?_
    rw [List.any_eq_true]
    exact ⟨0, List.mem_range.mpr (by norm_num), rfl⟩

-- ### Skill manager: string and list groundwork

/-- Helper: the head surviving a `dropWhile` fails the predicate. -/
theorem head?_dropWhile_false {α : Type} (p : α → Bool) (l : List α) :
    ∀ c, (l.dropWhile p).head? = some c → p c = false := by
  induction l with
  | nil => intro c h; simp at h
  | cons a t ih =>
    intro c h
    rw [List.dropWhile_cons] at h
    by_cases hp : p a = true
    · rw [if_pos hp] at h
      exact ih c h
    · rw [if_neg hp] at h
      simp only [List.head?_cons, Option.some.injEq] at h
      subst h
      exact Bool.eq_false_iff.mpr hp

/-- Helper: a list whose head fails the predicate survives `dropWhile`. -/
theorem dropWhile_eq_self_of_head {α : Type} (p : α → Bool) (l : List α)
    (h : ∀ c, l.head? = some c → p c = false) : l.dropWhile p = l := by
  cases l with
  | nil => rfl
  | cons a t =>
    rw [List.dropWhile_cons, if_neg]
    rw [h a rfl]
    simp

/-- Helper: a non-empty prefix shares its head with the longer list. -/
theorem prefix_head? {α : Type} {l₁ l₂ : List α} (h : l₁ <+: l₂) {c : α}
    (hc : l₁.head? = some c) : l₂.head? = some c := by
  obtain ⟨t, rfl⟩ := h
  cases l₁ with
  | nil => simp at hc
  | cons a t1 => simpa using hc

/-- Stripping whitespace twice is the same as stripping once. -/
theorem stripChars_idem (l : List Char) : stripChars (stripChars l) = stripChars l := by
  unfold stripChars
  have hBpre : ((((l.dropWhile isPySpace).reverse.dropWhile isPySpace)).reverse) <+:
      l.dropWhile isPySpace := by
    have hsuf := List.dropWhile_suffix (l := (l.dropWhile isPySpace).reverse) isPySpace
    have hp := List.reverse_prefix.mpr hsuf
    rwa [List.reverse_reverse] at hp
  have h1 : ((((l.dropWhile isPySpace).reverse.dropWhile isPySpace)).reverse).dropWhile
      isPySpace = (((l.dropWhile isPySpace).reverse.dropWhile isPySpace)).reverse := by
    apply dropWhile_eq_self_of_head
    intro c hc
    exact head?_dropWhile_false isPySpace l c (prefix_head? hBpre hc)
  rw [h1, List.reverse_reverse]
  have h2 : ((l.dropWhile isPySpace).reverse.dropWhile isPySpace).dropWhile isPySpace =
      (l.dropWhile isPySpace).reverse.dropWhile isPySpace := by
    apply dropWhile_eq_self_of_head
    intro c hc
    exact head?_dropWhile_false isPySpace (l.dropWhile isPySpace).reverse c hc
  rw [h2]

/-- Python `strip` is idempotent. -/
theorem pyStrip_idem (s : String) : pyStrip (pyStrip s) = pyStrip s := by
  show String.mk (stripChars (String.mk (stripChars s.data)).data) =
    String.mk (stripChars s.data)
  exact congrArg String.mk (stripChars_idem s.data)

/-- Every line read back from the requirements file is stripped and
non-blank. -/
theorem readReqs_clean (lines : List String) :
    ∀ x ∈ readReqs lines, pyStrip x = x ∧ x ≠ "" := by
  intro x hx
  unfold readReqs at hx
  rw [List.mem_filter] at hx
  obtain ⟨hmem, hne⟩ := hx
  rw [List.mem_map] at hmem
  obtain ⟨s, _, rfl⟩ := hmem
  refine ⟨pyStrip_idem s, ?_⟩
  intro h0
  rw [h0] at hne
  simp [String.isEmpty] at hne

/-- Reading a file of stripped non-blank lines returns them unchanged. -/
theorem readReqs_eq_self (l : List String) (h : ∀ x ∈ l, pyStrip x = x ∧ x ≠ "") :
    readReqs l = l := by
  unfold readReqs
  have h1 : l.map pyStrip = l := by
    rw [List.map_congr_left (g := id) (fun a ha => (h a ha).1), List.map_id]
  rw [h1, List.filter_eq_self.mpr]
  intro a ha
  cases hie : a.isEmpty with
  | false => rfl
  | true => exact absurd ((String.isEmpty_iff a).mp hie) (h a ha).2

/-- Membership characterization of a requirements-file read. -/
theorem mem_readReqs {x : String} {l : List String} :
    x ∈ readReqs l ↔ (∃ s ∈ l, pyStrip s = x) ∧ x ≠ "" := by
  unfold readReqs
  rw [List.mem_filter, List.mem_map]
  constructor
  · rintro ⟨hs, hne⟩
    refine ⟨hs, ?_⟩
    intro h0
    rw [h0] at hne
    simp [String.isEmpty] at hne
  · rintro ⟨hs, hne⟩
    refine ⟨hs, ?_⟩
    cases hie : x.isEmpty with
    | false => rfl
    | true => exact absurd ((String.isEmpty_iff x).mp hie) hne

/-- Reading depends only on the set of lines in the file. -/
theorem readReqs_mem_congr {l₁ l₂ : List String} (h : ∀ x, x ∈ l₁ ↔ x ∈ l₂) :
    ∀ x, x ∈ readReqs l₁ ↔ x ∈ readReqs l₂ := by
  intro x
  rw [mem_readReqs, mem_readReqs]
  constructor
  · rintro ⟨⟨s, hs, rfl⟩, hne⟩
    exact ⟨⟨s, (h s).mp hs, rfl⟩, hne⟩
  · rintro ⟨⟨s, hs, rfl⟩, hne⟩
    exact ⟨⟨s, (h s).mpr hs, rfl⟩, hne⟩

/-- Membership in the sorted deduplication. -/
theorem mem_sortedDedup {x : String} {l : List String} :
    x ∈ sortedDedup l ↔ x ∈ l := by
  unfold sortedDedup
  rw [List.mem_dedup]
  exact (List.perm_insertionSort strLe l).mem_iff

/-- The sorted deduplication is sorted. -/
theorem sorted_sortedDedup (l : List String) : List.Sorted strLe (sortedDedup l) :=
  List.Pairwise.sublist (List.dedup_sublist _) (List.sorted_insertionSort strLe l)

/-- The sorted deduplication has no duplicates. -/
theorem nodup_sortedDedup (l : List String) : (sortedDedup l).Nodup :=
  List.nodup_dedup _

/-- Two lists with the same members have the same sorted deduplication. -/
theorem sortedDedup_congr {l₁ l₂ : List String} (h : ∀ x, x ∈ l₁ ↔ x ∈ l₂) :
    sortedDedup l₁ = sortedDedup l₂ := by
  apply List.eq_of_perm_of_sorted _ (sorted_sortedDedup l₁) (sorted_sortedDedup l₂)
  rw [List.perm_ext_iff_of_nodup (nodup_sortedDedup l₁) (nodup_sortedDedup l₂)]
  intro a
  rw [mem_sortedDedup, mem_sortedDedup]
  exact h a

/-- Every entry of an updated requirements file is stripped and non-blank,
provided the new requirements are clean. -/
theorem clean_updateRequirements (F R : List String) (hR : ∀ r ∈ R, cleanReq r) :
    ∀ x ∈ updateRequirements F R, pyStrip x = x ∧ x ≠ "" := by
  intro x hx
  unfold updateRequirements at hx
  rw [mem_sortedDedup, List.mem_append] at hx
  cases hx with
  | inl hx => exact readReqs_clean F x hx
  | inr hx => exact ⟨(hR x hx).2.1, (hR x hx).1⟩

/-- Re-reading an updated requirements file returns it unchanged. -/
theorem readReqs_updateRequirements (F R : List String)
    (hR : ∀ r ∈ R, cleanReq r) :
    readReqs (updateRequirements F R) = updateRequirements F R :=
  readReqs_eq_self _ (clean_updateRequirements F R hR)

/-- Two sequential requirements-file updates collapse into one union,
provided the first batch is clean. -/
theorem double_update (F R₁ R₂ : List String) (h₁ : ∀ r ∈ R₁, cleanReq r) :
    updateRequirements (updateRequirements F R₁) R₂ =
      sortedDedup (readReqs F ++ (R₁ ++ R₂)) := by
  show sortedDedup (readReqs (updateRequirements F R₁) ++ R₂) = _
  rw [readReqs_updateRequirements F R₁ h₁]
  show sortedDedup (sortedDedup (readReqs F ++ R₁) ++ R₂) = _
  apply sortedDedup_congr
  intro x
  rw [List.mem_append, List.mem_append, mem_sortedDedup, List.mem_append,
    List.mem_append]
  tauto

/-- Helper: replacing the value at an existing key is found by lookup. -/
theorem find?_replace (k : String) (v : Skill) (d : List (String × Skill))
    (h : d.any (fun p => p.1 = k) = true) :
    (d.map (fun p => if p.1 = k then (k, v) else p)).find? (fun p => p.1 = k) =
      some (k, v) := by
  induction d with
  | nil => simp at h
  | cons p t ih =>
    by_cases hp : p.1 = k
    · simp [List.find?_cons, hp]
    · have ht : t.any (fun q => q.1 = k) = true := by
        rw [List.any_cons] at h
        simpa [hp] using h
      simp [List.find?_cons, hp, ih ht]

/-- Python-dict lookup after inserting at a key finds the inserted value. -/
theorem dictLookup_insert_self (k : String) (v : Skill) (d : List (String × Skill)) :
    dictLookup k (dictInsert k v d) = some v := by
  unfold dictInsert dictLookup
  by_cases h : d.any (fun p => p.1 = k) = true
  · rw [if_pos h, find?_replace k v d h]
    rfl
  · rw [if_neg h, List.find?_append]
    have hnone : d.find? (fun p => decide (p.1 = k)) = none := by
      rw [List.find?_eq_none]
      have h' : d.any (fun p => p.1 = k) = false := Bool.eq_false_iff.mpr h
      rw [List.any_eq_false] at h'
      exact h'
    rw [hnone]
    simp [List.find?_cons]

/-- A successful lookup pinpoints a member of the association list. -/
theorem dictLookup_mem (k : String) (v : Skill) (d : List (String × Skill))
    (h : dictLookup k d = some v) : (k, v) ∈ d := by
  unfold dictLookup at h
  cases hf : d.find? (fun p => p.1 = k) with
  | none => rw [hf] at h; simp at h
  | some q =>
    rw [hf] at h
    obtain ⟨qk, qv⟩ := q
    have hq : qk = k := by simpa using List.find?_some hf
    have hv : qv = v := by simpa using h
    subst hq
    subst hv
    exact List.mem_of_find?_eq_some hf

-- ### C4: skill round trip through learn / get_skill / improve_skill

/-- C4: `learn` stores and returns exactly the passed usage, requirements
and code (readable back through `get_skill` / `get_skill_code`), and a
subsequent `improve_skill` keeps the name and file path while updating
usage, requirements, and the on-disk code. -/
theorem c4_skill_round_trip (st : SMState) (n u c : String) (R : List String)
    (u2 c2 : String) (R2 : List String) :
    (st.learn n u c (some R)).2 = ⟨n, u, slug n, some R⟩ ∧
    (st.learn n u c (some R)).1.get_skill n = some ⟨n, u, slug n, some R⟩ ∧
    (st.learn n u c (some R)).1.get_skill_code ⟨n, u, slug n, some R⟩ = c ∧
    ((st.learn n u c (some R)).1.improve_skill n u2 c2 (some R2)).2 =
      some ⟨n, u2, slug n, some R2⟩ ∧
    ((st.learn n u c (some R)).1.improve_skill n u2 c2 (some R2)).1.get_skill_code
      ⟨n, u2, slug n, some R2⟩ = c2 := by
  have hlook : dictLookup n (dictInsert n ⟨n, u, slug n, some R⟩ st.skills) =
      some ⟨n, u, slug n, some R⟩ :=
    dictLookup_insert_self n ⟨n, u, slug n, some R⟩ st.skills
  refine ⟨rfl, ?_, ?_, ?_, ?_⟩
  · show dictLookup n (dictInsert n ⟨n, u, slug n, some R⟩ st.skills) = _
    exact hlook
  · show ((fun p => if p = slug n then some c else st.files p) (slug n)).getD "" = c
    simp
  · show (SMState.improve_skill _ n u2 c2 (some R2)).2 = _
    unfold SMState.improve_skill
    show (match dictLookup n (dictInsert n ⟨n, u, slug n, some R⟩ st.skills) with
      | none => _
      | some skill => _ : SMState × Option Skill).2 = _
    rw [hlook]
  · unfold SMState.improve_skill
    show (match dictLookup n (dictInsert n ⟨n, u, slug n, some R⟩ st.skills) with
      | none => _
      | some skill => _ : SMState × Option Skill).1.get_skill_code _ = _
    rw [hlook]
    show ((fun p => if p = slug n then some c2
      else (st.learn n u c (some R)).1.files p) (slug n)).getD "" = c2
    simp

-- ### C5: requirements aggregation

/-- The claim as stated fails: re-learning a skill whose requirement entry
carries leading whitespace grows the file instead of leaving it unchanged
(the read strips lines but the write does not). -/
theorem c5_claim_fails_idempotence :
    ((emptySM.learn "log helper" "u" "c" (some [" a"])).1.learn "log helper" "u" "c"
        (some [" a"])).1.reqFile ≠
      (emptySM.learn "log helper" "u" "c" (some [" a"])).1.reqFile := by
  decide

/-- Amended C5: for requirement entries that are non-blank, stripped, and
newline-free, learning two skills leaves the shared requirements file
independent of the learn order; when at least one list is non-empty the
file is exactly the sorted deduplicated union of the previously readable
lines and both lists; when both lists are empty the file is untouched; and
re-learning with the same requirements leaves the file unchanged. -/
theorem c5_amended (st : SMState) (n1 u1 c1 n2 u2 c2 : String)
    (R1 R2 : List String) (h1 : ∀ r ∈ R1, cleanReq r) (h2 : ∀ r ∈ R2, cleanReq r) :
    (((st.learn n1 u1 c1 (some R1)).1.learn n2 u2 c2 (some R2)).1.reqFile =
      ((st.learn n2 u2 c2 (some R2)).1.learn n1 u1 c1 (some R1)).1.reqFile) ∧
    (¬(R1 = [] ∧ R2 = []) →
      ((st.learn n1 u1 c1 (some R1)).1.learn n2 u2 c2 (some R2)).1.reqFile =
        sortedDedup (readReqs st.reqFile ++ (R1 ++ R2))) ∧
    (R1 = [] → R2 = [] →
      ((st.learn n1 u1 c1 (some R1)).1.learn n2 u2 c2 (some R2)).1.reqFile =
        st.reqFile) ∧
    (((st.learn n1 u1 c1 (some R1)).1.learn n1 u1 c1 (some R1)).1.reqFile =
      (st.learn n1 u1 c1 (some R1)).1.reqFile) := by
  have LF : ∀ (s : SMState) (n u c : String) (R : List String),
      (s.learn n u c (some R)).1.reqFile =
        if R.isEmpty then s.reqFile else updateRequirements s.reqFile R :=
    fun _ _ _ _ _ => rfl
  have hemp : ∀ (R : List String), R ≠ [] → R.isEmpty = false := by
    intro R h
    cases R with
    | nil => exact absurd rfl h
    | cons a t => rfl
  have main : ∀ (Ra Rb : List String), (∀ r ∈ Ra, cleanReq r) → Ra ≠ [] → Rb ≠ [] →
      ((st.learn n1 u1 c1 (some Ra)).1.learn n2 u2 c2 (some Rb)).1.reqFile =
        sortedDedup (readReqs st.reqFile ++ (Ra ++ Rb)) := by
    intro Ra Rb hca hna hnb
    rw [LF, LF, hemp Ra hna, hemp Rb hnb]
    simp only [Bool.false_eq_true, if_false]
    exact double_update st.reqFile Ra Rb hca
  refine ⟨?_, ?_, ?_, ?_⟩
  · by_cases e1 : R1 = []
    · by_cases e2 : R2 = []
      · subst e1; subst e2; rfl
      · subst e1
        rw [LF, LF, LF, LF, hemp R2 e2]
        rfl
    · by_cases e2 : R2 = []
      · subst e2
        rw [LF, LF, LF, LF, hemp R1 e1]
        rfl
      · rw [main R1 R2 h1 e1 e2]
        have hswap : ((st.learn n2 u2 c2 (some R2)).1.learn n1 u1 c1 (some R1)).1.reqFile
            = sortedDedup (readReqs st.reqFile ++ (R2 ++ R1)) := by
          rw [LF, LF, hemp R2 e2, hemp R1 e1]
          simp only [Bool.false_eq_true, if_false]
          exact double_update st.reqFile R2 R1 h2
        rw [hswap]
        apply sortedDedup_congr
        intro x
        simp only [List.mem_append]
        tauto
  · intro hne
    by_cases e1 : R1 = []
    · by_cases e2 : R2 = []
      · exact absurd ⟨e1, e2⟩ hne
      · subst e1
        rw [LF, LF, hemp R2 e2]
        rfl
    · by_cases e2 : R2 = []
      · subst e2
        rw [LF, LF, hemp R1 e1]
        simp only [List.isEmpty_nil, if_true, List.append_nil]
        exact rfl
    
      · exact main R1 R2 h1 e1 e2
  · intro e1 e2
    subst e1; subst e2; rfl
  · by_cases e1 : R1 = []
    · subst e1; rfl
    · rw [LF, LF, hemp R1 e1]
      simp only [Bool.false_eq_true, if_false]
      rw [double_update st.reqFile R1 R1 h1]
      show _ = updateRequirements st.reqFile R1
      apply sortedDedup_congr
      intro x
      simp only [List.mem_append]
      tauto

/-- Witness for the amended C5 at concrete overlapping requirement lists. -/
theorem c5_amended_witness :
    ((emptySM.learn "csv tool" "u" "x" (some ["requests"])).1.learn "plot tool" "u" "y"
        (some ["numpy", "requests"])).1.reqFile =
      ((emptySM.learn "plot tool" "u" "y" (some ["numpy", "requests"])).1.learn
        "csv tool" "u" "x" (some ["requests"])).1.reqFile :=
  (c5_amended emptySM "csv tool" "u" "x" "plot tool" "u" "y" ["requests"]
    ["numpy", "requests"] (by decide) (by decide)).1

-- ### C10: improve_skill with requirements omitted

/-- C10: improving a learned skill with the requirements argument omitted
leaves the shared requirements file unchanged, overwrites the stored
skill's requirements field with `None` (discarding the list recorded by
`learn`), and the manifest rewritten by the call records that skill's
requirements as an empty list. -/
theorem c10_improve_requirements_none (st : SMState) (n u c : String)
    (R : List String) (u2 c2 : String) :
    (((st.learn n u c (some R)).1.improve_skill n u2 c2 none).1.reqFile =
      (st.learn n u c (some R)).1.reqFile) ∧
    ((st.learn n u c (some R)).1.improve_skill n u2 c2 none).2 =
      some ⟨n, u2, slug n, none⟩ ∧
    ((st.learn n u c (some R)).1.improve_skill n u2 c2 none).1.get_skill n =
      some ⟨n, u2, slug n, none⟩ ∧
    (Skill.to_dict ⟨n, u2, slug n, none⟩).requirements = [] ∧
    Skill.to_dict ⟨n, u2, slug n, none⟩ ∈
      manifestOf ((st.learn n u c (some R)).1.improve_skill n u2 c2 none).1 := by
  have hlook : dictLookup n (st.learn n u c (some R)).1.skills =
      some ⟨n, u, slug n, some R⟩ :=
    dictLookup_insert_self n ⟨n, u, slug n, some R⟩ st.skills
  have himp : (st.learn n u c (some R)).1.improve_skill n u2 c2 none =
      ({ skills := dictInsert n ⟨n, u2, slug n, none⟩ (st.learn n u c (some R)).1.skills,
         files := fun p => if p = slug n then some c2
           else (st.learn n u c (some R)).1.files p,
         reqFile := (st.learn n u c (some R)).1.reqFile },
       some ⟨n, u2, slug n, none⟩) := by
    unfold SMState.improve_skill
    rw [hlook]
    rfl
  refine ⟨?_, ?_, ?_, rfl, ?_⟩
  · rw [himp]
  · rw [himp]
  · rw [himp]
    exact dictLookup_insert_self n ⟨n, u2, slug n, none⟩ _
  · rw [himp]
    exact List.mem_map.mpr ⟨(n, ⟨n, u2, slug n, none⟩),
      dictLookup_mem n _ _ (dictLookup_insert_self n ⟨n, u2, slug n, none⟩ _), rfl⟩

-- ### C6: name uniqueness and file-path containment

/-- Helper: inserting a value whose name is the key preserves the
name-matches-key association invariant. -/
theorem dictInsert_assoc (k : String) (v : Skill) (d : List (String × Skill))
    (hv : v.name = k) (hd : ∀ p ∈ d, p.2.name = p.1) :
    ∀ p ∈ dictInsert k v d, p.2.name = p.1 := by
  intro p hp
  unfold dictInsert at hp
  by_cases h : d.any (fun q => q.1 = k) = true
  · rw [if_pos h] at hp
    rw [List.mem_map] at hp
    obtain ⟨q, hq, rfl⟩ := hp
    by_cases hqk : q.1 = k
    · rw [if_pos hqk]
      exact hv
    · rw [if_neg hqk]
      exact hd q hq
  · rw [if_neg h] at hp
    rw [List.mem_append] at hp
    cases hp with
    | inl hp => exact hd p hp
    | inr hp =>
      rw [List.mem_singleton] at hp
      subst hp
      exact hv

/-- Helper: the key list after a dict insertion. -/
theorem dictInsert_keys (k : String) (v : Skill) (d : List (String × Skill)) :
    (dictInsert k v d).map Prod.fst =
      if d.any (fun p => p.1 = k) = true then d.map Prod.fst
      else d.map Prod.fst ++ [k] := by
  unfold dictInsert
  by_cases h : d.any (fun p => p.1 = k) = true
  · rw [if_pos h, if_pos h, List.map_map]
    apply List.map_congr_left
    intro p _
    by_cases hp1 : p.1 = k <;> simp [hp1, Function.comp]
  · rw [if_neg h, if_neg h, List.map_append]
    rfl

/-- Helper: dict insertion preserves key uniqueness. -/
theorem keys_nodup_insert (k : String) (v : Skill) (d : List (String × Skill))
    (h : (d.map Prod.fst).Nodup) : ((dictInsert k v d).map Prod.fst).Nodup := by
  rw [dictInsert_keys]
  by_cases hany : d.any (fun p => p.1 = k) = true
  · rw [if_pos hany]
    exact h
  · rw [if_neg hany]
    rw [List.nodup_append]
    refine ⟨h, List.nodup_singleton k, ?_⟩
    intro x hx hxk
    rw [List.mem_singleton] at hxk
    have h' : d.any (fun p => p.1 = k) = false := Bool.eq_false_iff.mpr hany
    rw [List.any_eq_false] at h'
    rw [List.mem_map] at hx
    obtain ⟨p, hp, hpk⟩ := hx
    exact h' p hp (by simp [hpk, hxk])

/-- Helper: a character list without `/` forms a single path component. -/
theorem splitSlash_no_slash (l : List Char) (h : ∀ c ∈ l, c ≠ '/') :
    splitSlash l = [l] := by
  induction l with
  | nil => rfl
  | cons c cs ih =>
    have hcs := ih (fun x hx => h x (List.mem_cons_of_mem _ hx))
    unfold splitSlash
    rw [hcs]
    simp [h c (List.mem_cons_self c cs)]

/-- Helper: the characters of a derived skill file name. -/
theorem slug_data (n : String) :
    (slug n).data =
      n.data.map (fun c => if c.toLower = ' ' then '_' else c.toLower) ++
        ['.', 'p', 'y'] := by
  unfold slug
  rw [String.data_append]

/-- Helper: a name whose characters do not lower-case to `/` derives a
file name that stays under the skills directory. -/
theorem resolves_of_no_slash (nm : String) (h : ∀ c ∈ nm.data, c.toLower ≠ '/') :
    resolvesUnderSkills (slug nm) = true := by
  have hd := slug_data nm
  have hno : ∀ c ∈ (slug nm).data, c ≠ '/' := by
    rw [hd]
    intro c hc
    rw [List.mem_append] at hc
    cases hc with
    | inl hc =>
      rw [List.mem_map] at hc
      obtain ⟨a, ha, rfl⟩ := hc
      by_cases hsp : a.toLower = ' '
      · rw [if_pos hsp]
        decide
      · rw [if_neg hsp]
        exact h a ha
    | inr hc =>
      exact (by decide : ∀ x ∈ ['.', 'p', 'y'], x ≠ '/') c hc
  unfold resolvesUnderSkills
  rw [if_neg]
  · show ((normPath ("skills" :: pathParts (slug nm))).head? == some "skills" &&
      decide (2 ≤ (normPath ("skills" :: pathParts (slug nm))).length)) = true
    have hparts : pathParts (slug nm) = [slug nm] := by
      unfold pathParts
      rw [splitSlash_no_slash _ hno]
      simp
    rw [hparts]
    have hfp1 : slug nm ≠ "" := by
      intro hfp
      have hdata : nm.data.map (fun c => if c.toLower = ' ' then '_' else c.toLower) ++
          ['.', 'p', 'y'] = [] := by rw [← hd, hfp]
      simp at hdata
    have hfp2 : slug nm ≠ "." := by
      intro hfp
      have hdata : nm.data.map (fun c => if c.toLower = ' ' then '_' else c.toLower) ++
          ['.', 'p', 'y'] = ['.'] := by rw [← hd, hfp]
      have hlen := congrArg List.length hdata
      simp at hlen
    have hfp3 : slug nm ≠ ".." := by
      intro hfp
      have hdata : nm.data.map (fun c => if c.toLower = ' ' then '_' else c.toLower) ++
          ['.', 'p', 'y'] = ['.', '.'] := by rw [← hd, hfp]
      have hlen := congrArg List.length hdata
      simp at hlen
    show ((normStep (normStep [] "skills") (slug nm)).head? == some "skills" &&
      decide (2 ≤ (normStep (normStep [] "skills") (slug nm)).length)) = true
    have h1 : normStep [] "skills" = ["skills"] := rfl
    have h2 : normStep ["skills"] (slug nm) = ["skills", slug nm] := by
      unfold normStep
      rw [if_neg, if_neg]
      · rfl
      · exact hfp3
      · rintro (hc | hc)
        · exact hfp1 hc
        · exact hfp2 hc
    rw [h1, h2]
    simp
  · intro heq
    have hmem : '/' ∈ (slug nm).data := by
      cases hdt : (slug nm).data with
      | nil => rw [hdt] at heq; simp at heq
      | cons a t =>
        rw [hdt] at heq
        simp only [List.head?_cons, Option.some.injEq] at heq
        subst heq
        exact List.mem_cons_self _ _
    exact hno '/' hmem rfl

/-- The claim as stated fails: the name `"../x"` derives the file path
`"../x.py"`, which resolves to a sibling of the skills directory, not a
location under it. -/
theorem c6_claim_fails_on_traversal_name :
    resolvesUnderSkills (slug "../x") = false := by
  decide

/-- Amended C6: `learn` preserves uniqueness of names as map keys (and in
the rewritten manifest), and for every name free of path separators (no
character lower-casing to `/`) the derived file path resolves under the
skills directory. -/
theorem c6_amended (st : SMState) (n u c : String) (reqs : Option (List String))
    (nm : String) :
    ((st.skills.map Prod.fst).Nodup → (∀ p ∈ st.skills, p.2.name = p.1) →
      (((st.learn n u c reqs).1.skills.map Prod.fst).Nodup ∧
        ((manifestOf (st.learn n u c reqs).1).map SkillDict.name).Nodup)) ∧
    ((∀ ch ∈ nm.data, ch.toLower ≠ '/') → resolvesUnderSkills (slug nm) = true) := by
  constructor
  · intro hnd hassoc
    have hskills : (st.learn n u c reqs).1.skills =
        dictInsert n ⟨n, u, slug n, reqs⟩ st.skills := rfl
    have hkeys : (((st.learn n u c reqs).1.skills).map Prod.fst).Nodup := by
      rw [hskills]
      exact keys_nodup_insert n _ st.skills hnd
    refine ⟨hkeys, ?_⟩
    have hassoc2 : ∀ p ∈ (st.learn n u c reqs).1.skills, p.2.name = p.1 := by
      rw [hskills]
      exact dictInsert_assoc n _ st.skills rfl hassoc
    have hnames : (manifestOf (st.learn n u c reqs).1).map SkillDict.name =
        ((st.learn n u c reqs).1.skills).map (fun p => p.2.name) := by
      unfold manifestOf
      rw [List.map_map]
      rfl
    rw [hnames, List.map_congr_left (g := Prod.fst) hassoc2]
    exact hkeys
  · exact resolves_of_no_slash nm

/-- Witness for the amended C6 at a concrete state and name. -/
theorem c6_amended_witness :
    ((((emptySM.learn "My Skill" "u" "c" (some ["requests"])).1.skills.map
        Prod.fst).Nodup ∧
      ((manifestOf (emptySM.learn "My Skill" "u" "c"
        (some ["requests"])).1).map SkillDict.name).Nodup) ∧
     resolvesUnderSkills (slug "My Skill") = true) :=
  ⟨(c6_amended emptySM "My Skill" "u" "c" (some ["requests"]) "My Skill").1
      (by decide) (fun p hp => absurd hp (by simp [emptySM])),
   (c6_amended emptySM "My Skill" "u" "c" (some ["requests"]) "My Skill").2
      (by decide)⟩
